import Mathlib

/-!
Shallow embedding of the `recs` ECS core (crates/recs/src) and proofs of the
claims about it.

Modelling conventions:
* Rust `Vec` is modelled as `List`; `Vec::push` appends at the end,
  `Vec::pop` removes the last element.  The entity manager's free list is a
  LIFO stack; it is modelled with the Lean list head as the stack top.
* `u32`/`usize` are modelled as `Nat`.  No claim in scope concerns wrap-around
  behaviour, and `u32` arithmetic overflow panics in debug builds, so the
  idealisation is faithful for all reachable executions considered here.
* Rust panics (index out of bounds, `unwrap` on `None`) only occur outside the
  data-structure invariants proved below; at such points the model picks a
  total default (noted locally at each definition).
* `Result<T, RecsError>` is `Except RecsError T`.  Operations that mutate
  `&mut self` and return `Result<(), _>` are modelled as functions returning
  the pair of the `Except` outcome and the post state (the post state equals
  the pre state exactly when the Rust code returns before mutating).
-/

namespace Recs

/-- An entity handle: `Entity(u32, u32)` from `entity/mod.rs`, field 0 the id
and field 1 the generation. -/
structure Entity where
  id : Nat
  generation : Nat
deriving DecidableEq, Repr

instance : Inhabited Entity := ⟨⟨0, 0⟩⟩

/-- The `RecsError` from `error.rs`.  `TypeId` is modelled as a `Nat` key. -/
inductive RecsError where
  | InvalidEntity (e : Entity)
  | ComponentNotFound (tk : Nat)
deriving DecidableEq, Repr

/-- The `EntityManager` from `entity/mod.rs`: a generation table and a LIFO free
list (list head = stack top = last pushed index). -/
structure EntityManager where
  generations : List Nat
  free_list : List Nat
deriving DecidableEq, Repr

namespace EntityManager

/-- The `EntityManager::new`. -/
def new : EntityManager := ⟨[], []⟩

/-- The `EntityManager::create_entity`: pop the free list and reuse the index with
the table's current generation, or extend the table with generation 1.
(Rust reads `self.generations[index]`, which panics if the free list held an
out-of-range index; the model totalises that read with `getD _ 0`, which is
never reached from well-formed states.) -/
def create_entity (m : EntityManager) : Entity × EntityManager :=
  match m.free_list with
  | index :: rest =>
      (⟨index, m.generations.getD index 0⟩, ⟨m.generations, rest⟩)
  | [] =>
      (⟨m.generations.length, 1⟩, ⟨m.generations ++ [1], m.free_list⟩)

/-- The `EntityManager::is_valid`: `index < generations.len() && generations[index] == generation`. -/
def is_valid (m : EntityManager) (e : Entity) : Bool :=
  decide (e.id < m.generations.length) && (m.generations.getD e.id 0 == e.generation)

/-- The `EntityManager::destroy_entity`: error on an invalid handle, otherwise bump
the stored generation and push the index on the free list. -/
def destroy_entity (m : EntityManager) (e : Entity) : Except RecsError EntityManager :=
  if m.is_valid e then
    .ok ⟨m.generations.set e.id (m.generations.getD e.id 0 + 1), e.id :: m.free_list⟩
  else
    .error (.InvalidEntity e)

end EntityManager

/-- One entity-manager operation, for stating trace properties. -/
inductive EMOp where
  | create
  | destroy (e : Entity)
deriving DecidableEq, Repr

/-- Apply one operation to an `EntityManager` (a failed destroy leaves the
state unchanged, as the Rust early return does). -/
def stepEM (m : EntityManager) (op : EMOp) : EntityManager :=
  match op with
  | .create => (m.create_entity).2
  | .destroy e =>
      match m.destroy_entity e with
      | .ok m' => m'
      | .error _ => m

/-- Run a list of operations from a state. -/
def runEM (m : EntityManager) (ops : List EMOp) : EntityManager :=
  ops.foldl stepEM m

/-- The generation stored for an index (0 when the index was never allocated,
matching `getD`). -/
def gensAt (m : EntityManager) (i : Nat) : Nat :=
  m.generations.getD i 0

/-- Well-formedness of an `EntityManager`: every free-list index is inside the
generation table. -/
def EMWF (m : EntityManager) : Prop :=
  ∀ i ∈ m.free_list, i < m.generations.length

theorem emwf_new : EMWF EntityManager.new := by
  intro i hi
  simp [EntityManager.new] at hi

theorem emwf_step (m : EntityManager) (op : EMOp) (h : EMWF m) : EMWF (stepEM m op) := by
  cases op with
  | create =>
      cases hf : m.free_list with
      | nil =>
          intro i hi
          simp [stepEM, EntityManager.create_entity, hf] at hi
      | cons a rest =>
          intro i hi
          simp [stepEM, EntityManager.create_entity, hf] at hi ⊢
          exact h i (by rw [hf]; exact List.mem_cons_of_mem a hi)
  | destroy e =>
      by_cases hv : m.is_valid e = true
      · intro i hi
        simp [stepEM, EntityManager.destroy_entity, hv] at hi ⊢
        rcases hi with hi | hi
        · subst hi
          simp [EntityManager.is_valid] at hv
          exact hv.1
        · exact h i hi
      · simpa [stepEM, EntityManager.destroy_entity, hv] using h

theorem emwf_run (m : EntityManager) (ops : List EMOp) (h : EMWF m) : EMWF (runEM m ops) := by
  induction ops generalizing m with
  | nil => simpa [runEM] using h
  | cons op rest ih =>
      simpa [runEM] using ih (stepEM m op) (emwf_step m op h)

/-- One step never shrinks the generation table and never decreases any
stored generation. -/
theorem stepEM_mono (m : EntityManager) (op : EMOp) :
    m.generations.length ≤ (stepEM m op).generations.length ∧
      ∀ i, gensAt m i ≤ gensAt (stepEM m op) i := by
  cases op with
  | create =>
      cases hf : m.free_list with
      | nil =>
          constructor
          · simp [stepEM, EntityManager.create_entity, hf]
          · intro i
            by_cases hi : i < m.generations.length
            · simp [stepEM, EntityManager.create_entity, hf, gensAt,
                List.getElem?_append_left, hi]
            · simp only [stepEM, EntityManager.create_entity, hf, gensAt,
                List.getD_eq_getElem?_getD]
              rw [List.getElem?_eq_none (l := m.generations) (by omega)]
              simp
      | cons a rest =>
          constructor
          · simp [stepEM, EntityManager.create_entity, hf]
          · intro i
            simp [stepEM, EntityManager.create_entity, hf, gensAt]
  | destroy e =>
      by_cases hv : m.is_valid e = true
      · have hlt : e.id < m.generations.length := by
          simp [EntityManager.is_valid] at hv
          exact hv.1
        constructor
        · simp [stepEM, EntityManager.destroy_entity, hv]
        · intro i
          by_cases hie : i = e.id
          · subst hie
            simp only [stepEM, EntityManager.destroy_entity, hv, if_pos, gensAt,
              List.getD_eq_getElem?_getD]
            rw [List.getElem?_set_self (by simpa using hlt)]
            simp
          · simp only [stepEM, EntityManager.destroy_entity, hv, if_pos, gensAt,
              List.getD_eq_getElem?_getD]
            rw [List.getElem?_set_ne (by omega)]
      · simp [stepEM, EntityManager.destroy_entity, hv]

/-- Trace version of `stepEM_mono`. -/
theorem runEM_mono (m : EntityManager) (ops : List EMOp) :
    m.generations.length ≤ (runEM m ops).generations.length ∧
      ∀ i, gensAt m i ≤ gensAt (runEM m ops) i := by
  induction ops generalizing m with
  | nil => simp [runEM]
  | cons op rest ih =>
      have h1 := stepEM_mono m op
      have h2 := ih (stepEM m op)
      refine ⟨le_trans h1.1 ?_, fun i => le_trans (h1.2 i) ?_⟩
      · simpa [runEM] using h2.1
      · simpa [runEM] using h2.2 i

/-- C5: destroying a valid entity makes it invalid; any entity later returned
by `create_entity` (after any further operations) that reuses the same index
carries a strictly greater generation; and validity is exactly the
generation-table test. -/
theorem destroy_invalidates_and_reuse_bumps_generation
    (m : EntityManager) (e : Entity) (m' : EntityManager)
    (hd : m.destroy_entity e = .ok m') :
    m'.is_valid e = false ∧
      (∀ ops e2 m3,
        ((runEM m' ops).create_entity = (e2, m3)) → e2.id = e.id →
          e.generation < e2.generation) ∧
      (∀ mm : EntityManager, ∀ i g : Nat,
        mm.is_valid ⟨i, g⟩ = true ↔ i < mm.generations.length ∧ mm.generations.getD i 0 = g) := by
  have hv : m.is_valid e = true := by
    by_contra hv
    simp [EntityManager.destroy_entity, hv] at hd
  have hlt : e.id < m.generations.length := by
    simp [EntityManager.is_valid] at hv
    exact hv.1
  have hg : m.generations[e.id]?.getD 0 = e.generation := by
    simp [EntityManager.is_valid] at hv
    exact hv.2
  have hm' : m' = ⟨m.generations.set e.id (m.generations[e.id]?.getD 0 + 1), e.id :: m.free_list⟩ := by
    simp [EntityManager.destroy_entity, hv] at hd
    exact hd.symm
  have hlen' : m'.generations.length = m.generations.length := by
    rw [hm']
    simp
  have hbump : m'.generations[e.id]?.getD 0 = e.generation + 1 := by
    rw [hm']
    show (m.generations.set e.id (m.generations[e.id]?.getD 0 + 1))[e.id]?.getD 0
        = e.generation + 1
    rw [List.getElem?_set_self (by simpa using hlt)]
    simp [hg]
  refine ⟨?_, ?_, ?_⟩
  · simp only [EntityManager.is_valid, Bool.and_eq_false_iff]
    right
    simp only [List.getD_eq_getElem?_getD, hbump, beq_eq_false_iff_ne, ne_eq]
    omega
  · intro ops e2 m3 hc hid
    have hmono := runEM_mono m' ops
    cases hf : (runEM m' ops).free_list with
    | cons a rest =>
        have hce : (runEM m' ops).create_entity
            = (⟨a, (runEM m' ops).generations.getD a 0⟩, ⟨(runEM m' ops).generations, rest⟩) := by
          simp [EntityManager.create_entity, hf]
        rw [hce] at hc
        have he2 : e2 = ⟨a, (runEM m' ops).generations.getD a 0⟩ :=
          ((Prod.mk.injEq _ _ _ _).mp hc).1.symm
        subst he2
        simp only at hid
        subst hid
        show e.generation < (runEM m' ops).generations.getD e.id 0
        have h5 : gensAt m' e.id ≤ gensAt (runEM m' ops) e.id := hmono.2 e.id
        have h6 : gensAt m' e.id = e.generation + 1 := by
          simpa [gensAt, List.getD_eq_getElem?_getD] using hbump
        simp only [gensAt] at h5 h6
        omega
    | nil =>
        exfalso
        have hce : (runEM m' ops).create_entity
            = (⟨(runEM m' ops).generations.length, 1⟩,
                ⟨(runEM m' ops).generations ++ [1], (runEM m' ops).free_list⟩) := by
          simp [EntityManager.create_entity, hf]
        rw [hce] at hc
        have he2 : e2 = ⟨(runEM m' ops).generations.length, 1⟩ :=
          ((Prod.mk.injEq _ _ _ _).mp hc).1.symm
        have h7 : e2.id = (runEM m' ops).generations.length := by rw [he2]
        have hge : m.generations.length ≤ (runEM m' ops).generations.length := by
          calc m.generations.length = m'.generations.length := hlen'.symm
            _ ≤ _ := hmono.1
        omega
  · intro mm i g
    simp [EntityManager.is_valid]

/-- Concrete witness for `destroy_invalidates_and_reuse_bumps_generation`:
create an entity in a fresh manager, destroy it, and instantiate the theorem
there. -/
theorem destroy_invalidates_witness :
    (EntityManager.destroy_entity ⟨[1], []⟩ ⟨0, 1⟩ = .ok ⟨[2], [0]⟩) ∧
      ((⟨[2], [0]⟩ : EntityManager).is_valid ⟨0, 1⟩ = false ∧
        (∀ ops e2 m3,
          ((runEM ⟨[2], [0]⟩ ops).create_entity = (e2, m3)) → e2.id = 0 →
            1 < e2.generation) ∧
        (∀ mm : EntityManager, ∀ i g : Nat,
          mm.is_valid ⟨i, g⟩ = true ↔ i < mm.generations.length ∧ mm.generations.getD i 0 = g)) :=
  ⟨rfl,
    destroy_invalidates_and_reuse_bumps_generation ⟨[1], []⟩ ⟨0, 1⟩ ⟨[2], [0]⟩ rfl⟩

/-- C10: from any reachable entity-manager state, a freshly created entity is
immediately valid, and (in any state) two simultaneously valid entities
sharing an index are the same entity. -/
theorem create_entity_valid_and_index_unique (ops : List EMOp) :
    ((runEM EntityManager.new ops).create_entity.2.is_valid
        (runEM EntityManager.new ops).create_entity.1 = true) ∧
      (∀ mm : EntityManager, ∀ e1 e2 : Entity,
        mm.is_valid e1 = true → mm.is_valid e2 = true → e1.id = e2.id → e1 = e2) := by
  constructor
  · set m := runEM EntityManager.new ops with hm
    have hwf : EMWF m := emwf_run _ _ emwf_new
    cases hf : m.free_list with
    | cons a rest =>
        have ha : a < m.generations.length := hwf a (by simp [hf])
        simp [EntityManager.create_entity, hf, EntityManager.is_valid, ha]
    | nil =>
        simp only [EntityManager.create_entity, hf, EntityManager.is_valid]
        simp [List.getD_eq_getElem?_getD, List.getElem?_concat_length]
  · intro mm e1 e2 h1 h2 hid
    cases e1 with
    | mk i1 g1 =>
        cases e2 with
        | mk i2 g2 =>
            simp only at hid
            subst hid
            simp [EntityManager.is_valid] at h1 h2
            have hgg : g1 = g2 := by rw [← h1.2, ← h2.2]
            simp [hgg]

/-- The `SparseSet<C>` from `component/sparse_set.rs`: a packed `dense` value
array, the parallel `entities` array, and the `sparse` indirection array. -/
structure SparseSet (V : Type) where
  dense : List V
  entities : List Entity
  sparse : List (Option Nat)
deriving DecidableEq, Repr

namespace SparseSet

variable {V : Type}

/-- The `SparseSet::new`. -/
def empty : SparseSet V := ⟨[], [], []⟩

/-- The sparse entry for an entity id (`None` when out of range, as
`sparse.get(id)` flattened by `and_then` in the source). -/
def sparseAt (s : SparseSet V) (id : Nat) : Option Nat :=
  (s.sparse[id]?).getD none

/-- The `self.sparse.resize(id + 1, None)` guarded by `id >= self.sparse.len()`
from `SparseSet::insert`. -/
def growSparse (sp : List (Option Nat)) (id : Nat) : List (Option Nat) :=
  if sp.length ≤ id then sp ++ List.replicate (id + 1 - sp.length) none else sp

/-- The `SparseSet::insert`: grow `sparse` to cover the id, then either overwrite
in place (update path, which also rewrites the entity slot) or append a new
dense slot.  (`self.entities[dense_index] = entity` would panic out of bounds
in Rust; `List.set` is a no-op there, a divergence only outside `Inv`.) -/
def insert (s : SparseSet V) (entity : Entity) (component : V) : SparseSet V :=
  match ((growSparse s.sparse entity.id)[entity.id]?).getD none with
  | some dense_index =>
      { dense := s.dense.set dense_index component,
        entities := s.entities.set dense_index entity,
        sparse := growSparse s.sparse entity.id }
  | none =>
      { dense := s.dense ++ [component],
        entities := s.entities ++ [entity],
        sparse := (growSparse s.sparse entity.id).set entity.id (some s.dense.length) }

/-- The `SparseSet::remove`: swap-remove through the sparse indirection, returning
the removed value together with the post state.  `s.dense.length - 1` is the
source's `last_index`.  The `| _, _` branch totalises the `pop().unwrap()`
panic (sparse entry present but dense empty), which is unreachable under
`Inv`; likewise the `getD` default for the `replace` read. -/
def remove (s : SparseSet V) (id : Nat) : Option V × SparseSet V :=
  match (s.sparse[id]?).getD none with
  | none => (none, s)
  | some dense_index =>
      match s.dense.getLast?, s.entities.getLast? with
      | some last_item, some last_entity =>
          if dense_index ≠ s.dense.length - 1 then
            (some (s.dense.getD dense_index last_item),
              { dense := (s.dense.dropLast).set dense_index last_item,
                entities := (s.entities.dropLast).set dense_index last_entity,
                sparse := (s.sparse.set last_entity.id (some dense_index)).set id none })
          else
            (some last_item,
              { dense := s.dense.dropLast,
                entities := s.entities.dropLast,
                sparse := s.sparse.set id none })
      | _, _ => (none, s)

/-- The `SparseSet::get`: bounds-check against `sparse.len()`, then resolve the
indirection into `dense`. -/
def get (s : SparseSet V) (id : Nat) : Option V :=
  if s.sparse.length ≤ id then none
  else
    match (s.sparse[id]?).getD none with
    | some index => s.dense[index]?
    | none => none

/-- The `SparseSet::len`. -/
def len (s : SparseSet V) : Nat :=
  s.dense.length

/-- The sparse-set invariant: parallel arrays have equal length, every sparse
entry points to a dense slot recording an entity with that id, and every dense
slot is pointed back to by the sparse entry of its recorded entity. -/
def Inv (s : SparseSet V) : Prop :=
  s.dense.length = s.entities.length ∧
    (∀ i j, s.sparseAt i = some j → ∃ e, s.entities[j]? = some e ∧ e.id = i) ∧
    (∀ j e, s.entities[j]? = some e → s.sparseAt e.id = some j)

/-- Executable check equivalent to `Inv` (used to discharge `Inv` on concrete
states by `decide`). -/
def invCheck (s : SparseSet V) : Bool :=
  (s.dense.length == s.entities.length) &&
    ((List.range s.sparse.length).all fun i =>
      match (s.sparse[i]?).getD none with
      | none => true
      | some j =>
          match s.entities[j]? with
          | some e => e.id == i
          | none => false) &&
    ((List.range s.entities.length).all fun j =>
      match s.entities[j]? with
      | some e => (s.sparse[e.id]?).getD none == some j
      | none => true)

theorem inv_of_invCheck (s : SparseSet V) (h : s.invCheck = true) : s.Inv := by
  simp only [invCheck, Bool.and_eq_true, List.all_eq_true, List.mem_range, beq_iff_eq] at h
  obtain ⟨⟨hlen, hfwd⟩, hbwd⟩ := h
  refine ⟨hlen, ?_, ?_⟩
  · intro i j hij
    by_cases hi : i < s.sparse.length
    · have := hfwd i hi
      rw [show s.sparseAt i = (s.sparse[i]?).getD none from rfl] at hij
      rw [hij] at this
      simp only at this
      cases he : s.entities[j]? with
      | none => rw [he] at this; exact absurd this (by simp)
      | some e =>
          rw [he] at this
          simp only [beq_iff_eq] at this
          exact ⟨e, rfl, this⟩
    · exfalso
      rw [show s.sparseAt i = (s.sparse[i]?).getD none from rfl,
        List.getElem?_eq_none (by omega)] at hij
      simp at hij
  · intro j e hje
    have hj : j < s.entities.length := by
      by_contra hj
      rw [List.getElem?_eq_none (by omega)] at hje
      simp at hje
    have := hbwd j hj
    rw [hje] at this
    simp only [beq_iff_eq] at this
    exact this

theorem getElem?_lt_length {α : Type _} {l : List α} {j : Nat} {a : α}
    (h : l[j]? = some a) : j < l.length := by
  by_contra hj
  rw [List.getElem?_eq_none (by omega)] at h
  exact absurd h (by simp)

theorem sparseAt_some_lt {s : SparseSet V} {i j : Nat} (h : s.sparseAt i = some j) :
    i < s.sparse.length := by
  by_contra hi
  rw [show s.sparseAt i = (s.sparse[i]?).getD none from rfl,
    List.getElem?_eq_none (l := s.sparse) (by omega)] at h
  exact absurd h (by simp)

theorem sparseAt_mk (d : List V) (es : List Entity) (sp : List (Option Nat)) (i : Nat) :
    SparseSet.sparseAt ⟨d, es, sp⟩ i = (sp[i]?).getD none := rfl

/-- Growing the sparse array with `none` padding changes no sparse entry. -/
theorem sparseAt_grow (s : SparseSet V) (id i : Nat) :
    ((growSparse s.sparse id)[i]?).getD none = s.sparseAt i := by
  rw [growSparse]
  by_cases hg : s.sparse.length ≤ id
  · rw [if_pos hg]
    by_cases hi : i < s.sparse.length
    · rw [List.getElem?_append_left hi]
      rfl
    · rw [List.getElem?_append_right (by omega)]
      rw [show s.sparseAt i = (s.sparse[i]?).getD none from rfl,
        List.getElem?_eq_none (l := s.sparse) (by omega)]
      rw [List.getElem?_replicate]
      split <;> rfl
  · rw [if_neg hg]
    rfl

theorem growSparse_length (sp : List (Option Nat)) (id : Nat) :
    id < (growSparse sp id).length := by
  rw [growSparse]
  by_cases hg : sp.length ≤ id
  · rw [if_pos hg]
    simp
    omega
  · rw [if_neg hg]
    omega

theorem insert_eq_update (s : SparseSet V) (entity : Entity) (v : V) (d : Nat)
    (h : ((growSparse s.sparse entity.id)[entity.id]?).getD none = some d) :
    s.insert entity v
      = { dense := s.dense.set d v,
          entities := s.entities.set d entity,
          sparse := growSparse s.sparse entity.id } := by
  rw [insert, h]

theorem insert_eq_append (s : SparseSet V) (entity : Entity) (v : V)
    (h : ((growSparse s.sparse entity.id)[entity.id]?).getD none = none) :
    s.insert entity v
      = { dense := s.dense ++ [v],
          entities := s.entities ++ [entity],
          sparse := (growSparse s.sparse entity.id).set entity.id (some s.dense.length) } := by
  rw [insert, h]

theorem remove_eq_absent (s : SparseSet V) (id : Nat)
    (h : (s.sparse[id]?).getD none = none) :
    s.remove id = (none, s) := by
  rw [remove, h]

theorem remove_eq_swap (s : SparseSet V) (id d : Nat) (li : V) (le : Entity)
    (h : (s.sparse[id]?).getD none = some d)
    (hli : s.dense.getLast? = some li) (hle : s.entities.getLast? = some le)
    (hd : d ≠ s.dense.length - 1) :
    s.remove id
      = (some (s.dense.getD d li),
          { dense := (s.dense.dropLast).set d li,
            entities := (s.entities.dropLast).set d le,
            sparse := (s.sparse.set le.id (some d)).set id none }) := by
  rw [remove, h, hli, hle]
  show (if d ≠ s.dense.length - 1 then
          (some (s.dense.getD d li),
            ({ dense := (s.dense.dropLast).set d li,
               entities := (s.entities.dropLast).set d le,
               sparse := (s.sparse.set le.id (some d)).set id none } : SparseSet V))
        else
          (some li,
            { dense := s.dense.dropLast,
              entities := s.entities.dropLast,
              sparse := s.sparse.set id none })) = _
  rw [if_pos hd]

theorem remove_eq_last (s : SparseSet V) (id d : Nat) (li : V) (le : Entity)
    (h : (s.sparse[id]?).getD none = some d)
    (hli : s.dense.getLast? = some li) (hle : s.entities.getLast? = some le)
    (hd : d = s.dense.length - 1) :
    s.remove id
      = (some li,
          { dense := s.dense.dropLast,
            entities := s.entities.dropLast,
            sparse := s.sparse.set id none }) := by
  rw [remove, h, hli, hle]
  show (if d ≠ s.dense.length - 1 then
          (some (s.dense.getD d li),
            ({ dense := (s.dense.dropLast).set d li,
               entities := (s.entities.dropLast).set d le,
               sparse := (s.sparse.set le.id (some d)).set id none } : SparseSet V))
        else
          (some li,
            { dense := s.dense.dropLast,
              entities := s.entities.dropLast,
              sparse := s.sparse.set id none })) = _
  rw [if_neg (show ¬ d ≠ s.dense.length - 1 by omega)]

/-- The `insert` preserves the sparse-set invariant. -/
theorem inv_insert (s : SparseSet V) (entity : Entity) (v : V) (h : s.Inv) :
    (s.insert entity v).Inv := by
  obtain ⟨hlen, hfwd, hbwd⟩ := h
  have hspAt : ∀ i, ((growSparse s.sparse entity.id)[i]?).getD none = s.sparseAt i :=
    fun i => sparseAt_grow s entity.id i
  have hidlt : entity.id < (growSparse s.sparse entity.id).length :=
    growSparse_length s.sparse entity.id
  cases hcase : ((growSparse s.sparse entity.id)[entity.id]?).getD none with
  | some d =>
      have hat : s.sparseAt entity.id = some d := by rw [← hspAt]; exact hcase
      obtain ⟨e0, he0, he0id⟩ := hfwd entity.id d hat
      have hd_lt : d < s.entities.length := getElem?_lt_length he0
      rw [insert_eq_update s entity v d hcase]
      refine ⟨by simp [hlen], ?_, ?_⟩
      · intro i j hij
        rw [sparseAt_mk, hspAt] at hij
        obtain ⟨e, he, heid⟩ := hfwd i j hij
        by_cases hj : j = d
        · subst hj
          refine ⟨entity, ?_, ?_⟩
          · show (s.entities.set j entity)[j]? = some entity
            rw [List.getElem?_set_self (by omega)]
          · have hee : e = e0 := Option.some.inj (he.symm.trans he0)
            rw [hee] at heid
            omega
        · refine ⟨e, ?_, heid⟩
          show (s.entities.set d entity)[j]? = some e
          rw [List.getElem?_set_ne (by omega)]
          exact he
      · intro j e hje
        replace hje : (s.entities.set d entity)[j]? = some e := hje
        by_cases hj : j = d
        · subst hj
          rw [List.getElem?_set_self (by omega)] at hje
          have he : entity = e := Option.some.inj hje
          rw [sparseAt_mk, hspAt, ← he]
          exact hat
        · rw [List.getElem?_set_ne (by omega)] at hje
          rw [sparseAt_mk, hspAt]
          exact hbwd j e hje
  | none =>
      have hat : s.sparseAt entity.id = none := by rw [← hspAt]; exact hcase
      rw [insert_eq_append s entity v hcase]
      refine ⟨by simp [hlen], ?_, ?_⟩
      · intro i j hij
        rw [sparseAt_mk] at hij
        by_cases hi : i = entity.id
        · subst hi
          rw [List.getElem?_set_self (by omega)] at hij
          simp only [Option.getD_some] at hij
          have hj : j = s.dense.length := (Option.some.inj hij).symm
          subst hj
          refine ⟨entity, ?_, rfl⟩
          show (s.entities ++ [entity])[s.dense.length]? = some entity
          rw [hlen, List.getElem?_concat_length]
        · rw [List.getElem?_set_ne (by omega)] at hij
          rw [hspAt] at hij
          obtain ⟨e, he, heid⟩ := hfwd i j hij
          refine ⟨e, ?_, heid⟩
          show (s.entities ++ [entity])[j]? = some e
          rw [List.getElem?_append_left (getElem?_lt_length he)]
          exact he
      · intro j e hje
        replace hje : (s.entities ++ [entity])[j]? = some e := hje
        have hjlt : j < s.entities.length + 1 := by
          have := getElem?_lt_length hje
          simpa using this
        rw [sparseAt_mk]
        by_cases hj : j = s.entities.length
        · subst hj
          rw [List.getElem?_concat_length] at hje
          have he : entity = e := Option.some.inj hje
          rw [← he]
          rw [List.getElem?_set_self (by omega)]
          simp [hlen]
        · have hjlt' : j < s.entities.length := by omega
          rw [List.getElem?_append_left hjlt'] at hje
          have hb := hbwd j e hje
          have hne : e.id ≠ entity.id := by
            intro hcontra
            rw [hcontra, hat] at hb
            exact absurd hb (by simp)
          rw [List.getElem?_set_ne (by omega)]
          rw [hspAt]
          exact hb

/-- The `remove` preserves the sparse-set invariant. -/
theorem inv_remove (s : SparseSet V) (id : Nat) (h : s.Inv) : (s.remove id).2.Inv := by
  obtain ⟨hlen, hfwd, hbwd⟩ := h
  cases hsp : (s.sparse[id]?).getD none with
  | none =>
      rw [remove_eq_absent s id hsp]
      exact ⟨hlen, hfwd, hbwd⟩
  | some d =>
      have hat : s.sparseAt id = some d := hsp
      obtain ⟨ed, hed, hedid⟩ := hfwd id d hat
      have hd_lt : d < s.entities.length := getElem?_lt_length hed
      have hLpos : 0 < s.dense.length := by omega
      obtain ⟨li, hlastd⟩ : ∃ x, s.dense.getLast? = some x := by
        rw [List.getLast?_eq_getElem?]
        exact ⟨_, List.getElem?_eq_getElem (by omega)⟩
      obtain ⟨le, hlaste⟩ : ∃ x, s.entities.getLast? = some x := by
        rw [List.getLast?_eq_getElem?]
        exact ⟨_, List.getElem?_eq_getElem (by omega)⟩
      have hlee : s.entities[s.dense.length - 1]? = some le := by
        rw [hlen, ← List.getLast?_eq_getElem?]
        exact hlaste
      have hble := hbwd (s.dense.length - 1) le hlee
      by_cases hdl : d = s.dense.length - 1
      · rw [remove_eq_last s id d li le hsp hlastd hlaste hdl]
        refine ⟨by simp [hlen], ?_, ?_⟩
        · intro i j hij
          rw [sparseAt_mk] at hij
          by_cases hi : i = id
          · subst hi
            rw [List.getElem?_set_self (sparseAt_some_lt hat)] at hij
            exact absurd hij (by simp)
          · rw [List.getElem?_set_ne (by omega)] at hij
            obtain ⟨e, he, heid⟩ := hfwd i j hij
            have hj_lt : j < s.entities.length := getElem?_lt_length he
            have hj_ne : j ≠ s.dense.length - 1 := by
              intro hcontra
              have : e = ed := by
                rw [hcontra] at he
                rw [hdl] at hed
                exact Option.some.inj (he.symm.trans hed)
              rw [this] at heid
              omega
            refine ⟨e, ?_, heid⟩
            show (s.entities.dropLast)[j]? = some e
            rw [List.getElem?_dropLast, if_pos (by omega)]
            exact he
        · intro j e hje
          replace hje : (s.entities.dropLast)[j]? = some e := hje
          have hj_lt : j < s.entities.length - 1 := by
            have := getElem?_lt_length hje
            simpa using this
          rw [List.getElem?_dropLast, if_pos (by omega)] at hje
          have hb := hbwd j e hje
          have hne : e.id ≠ id := by
            intro hcontra
            rw [hcontra, hat] at hb
            have : j = d := (Option.some.inj hb).symm
            omega
          rw [sparseAt_mk, List.getElem?_set_ne (by omega)]
          exact hb
      · rw [remove_eq_swap s id d li le hsp hlastd hlaste hdl]
        have hd_lt' : d < s.dense.length - 1 := by omega
        have hle_ne : le.id ≠ id := by
          intro hcontra
          have hb2 := hble
          rw [hcontra, hat] at hb2
          have : d = s.dense.length - 1 := Option.some.inj hb2
          omega
        have hle_lt : le.id < s.sparse.length := sparseAt_some_lt hble
        refine ⟨by simp [hlen], ?_, ?_⟩
        · intro i j hij
          rw [sparseAt_mk] at hij
          by_cases hi : i = id
          · subst hi
            rw [List.getElem?_set_self (by simpa using sparseAt_some_lt hat)] at hij
            exact absurd hij (by simp)
          · rw [List.getElem?_set_ne (by omega)] at hij
            by_cases hil : i = le.id
            · subst hil
              rw [List.getElem?_set_self hle_lt] at hij
              simp only [Option.getD_some] at hij
              have hj : j = d := (Option.some.inj hij).symm
              subst hj
              refine ⟨le, ?_, rfl⟩
              show ((s.entities.dropLast).set j le)[j]? = some le
              rw [List.getElem?_set_self (by simp [hlen]; omega)]
            · rw [List.getElem?_set_ne (by omega)] at hij
              obtain ⟨e, he, heid⟩ := hfwd i j hij
              have hj_lt : j < s.entities.length := getElem?_lt_length he
              have hj_ne_last : j ≠ s.entities.length - 1 := by
                intro hcontra
                have hlee2 : s.entities[j]? = some le := by
                  rw [hcontra, ← List.getLast?_eq_getElem?]
                  exact hlaste
                have hel : e = le := Option.some.inj (he.symm.trans hlee2)
                rw [hel] at heid
                exact hil heid.symm
              have hj_ne_d : j ≠ d := by
                intro hcontra
                have : e = ed := by
                  rw [hcontra] at he
                  exact Option.some.inj (he.symm.trans hed)
                rw [this] at heid
                omega
              refine ⟨e, ?_, heid⟩
              show ((s.entities.dropLast).set d le)[j]? = some e
              rw [List.getElem?_set_ne (by omega), List.getElem?_dropLast,
                if_pos (by omega)]
              exact he
        · intro j e hje
          replace hje : ((s.entities.dropLast).set d le)[j]? = some e := hje
          have hj_lt : j < s.entities.length - 1 := by
            have := getElem?_lt_length hje
            simpa using this
          rw [sparseAt_mk]
          by_cases hj : j = d
          · subst hj
            rw [List.getElem?_set_self (by simp; omega)] at hje
            have he : le = e := Option.some.inj hje
            rw [← he]
            rw [List.getElem?_set_ne (by omega), List.getElem?_set_self hle_lt]
            rfl
          · rw [List.getElem?_set_ne (by omega), List.getElem?_dropLast,
              if_pos (by omega)] at hje
            have hb := hbwd j e hje
            have hne_id : e.id ≠ id := by
              intro hcontra
              rw [hcontra, hat] at hb
              have : j = d := (Option.some.inj hb).symm
              omega
            have hne_le : e.id ≠ le.id := by
              intro hcontra
              rw [hcontra, hble] at hb
              have : j = s.dense.length - 1 := (Option.some.inj hb).symm
              rw [hlen] at this
              omega
            rw [List.getElem?_set_ne (by omega), List.getElem?_set_ne (by omega)]
            exact hb

theorem inv_empty : (SparseSet.empty : SparseSet V).Inv := by
  refine ⟨rfl, ?_, ?_⟩
  · intro i j hij
    rw [show (SparseSet.empty : SparseSet V).sparseAt i = (([] : List (Option Nat))[i]?).getD none
      from rfl] at hij
    simp at hij
  · intro j e hje
    simp [SparseSet.empty] at hje

end SparseSet

/-- One sparse-set operation, for stating trace properties. -/
inductive SSOp (V : Type) where
  | insertOp (e : Entity) (v : V)
  | removeOp (id : Nat)

/-- Apply one sparse-set operation. -/
def stepSS (s : SparseSet V) (op : SSOp V) : SparseSet V :=
  match op with
  | .insertOp e v => s.insert e v
  | .removeOp id => (s.remove id).2

/-- Run a list of sparse-set operations. -/
def runSS (s : SparseSet V) (ops : List (SSOp V)) : SparseSet V :=
  ops.foldl stepSS s

theorem inv_runSS (s : SparseSet V) (ops : List (SSOp V)) (h : s.Inv) : (runSS s ops).Inv := by
  induction ops generalizing s with
  | nil => simpa [runSS] using h
  | cons op rest ih =>
      have h1 : (stepSS s op).Inv := by
        cases op with
        | insertOp e v => exact SparseSet.inv_insert s e v h
        | removeOp id => exact SparseSet.inv_remove s id h
      simpa [runSS] using ih (stepSS s op) h1

/-- C3: after any sequence of inserts and removes from the empty sparse set,
`len()` equals the dense length, the dense and entity arrays are parallel, and
every occupied sparse entry points to a dense slot recording an entity with
that id. -/
theorem sparse_set_invariant_any_ops (V : Type) (ops : List (SSOp V)) :
    (runSS SparseSet.empty ops).len = (runSS SparseSet.empty ops).dense.length ∧
      (runSS SparseSet.empty ops).dense.length = (runSS SparseSet.empty ops).entities.length ∧
      (∀ i j, (runSS SparseSet.empty ops).sparseAt i = some j →
        ∃ e, (runSS SparseSet.empty ops).entities[j]? = some e ∧ e.id = i) := by
  have h := inv_runSS SparseSet.empty ops SparseSet.inv_empty
  exact ⟨rfl, h.1, h.2.1⟩

/-- C4: `remove` on an absent id returns `None` and changes nothing; removing
a present non-last slot returns the removed value, relocates exactly the
former last (value, entity) pair into the freed slot, repoints exactly the
relocated entity's sparse entry and clears `sparse[id]`; removing the last
slot shrinks the parallel arrays by one with no change other than clearing
`sparse[id]`. -/
theorem remove_swap_characterisation (s : SparseSet V) (id : Nat) :
    (s.sparseAt id = none → s.remove id = (none, s)) ∧
      (s.Inv → ∀ d, s.sparseAt id = some d →
        (d ≠ s.dense.length - 1 →
          (s.remove id).1 = s.dense[d]? ∧
            (s.remove id).2.dense.length = s.dense.length - 1 ∧
            (s.remove id).2.entities.length = s.entities.length - 1 ∧
            (s.remove id).2.dense[d]? = s.dense[s.dense.length - 1]? ∧
            (s.remove id).2.entities[d]? = s.entities[s.entities.length - 1]? ∧
            (∀ k, k ≠ d → (s.remove id).2.dense[k]? = (s.dense.dropLast)[k]? ∧
              (s.remove id).2.entities[k]? = (s.entities.dropLast)[k]?) ∧
            (s.remove id).2.sparseAt id = none ∧
            (∀ le, s.entities[s.entities.length - 1]? = some le →
              (s.remove id).2.sparseAt le.id = some d ∧
                (∀ k, k ≠ id → k ≠ le.id →
                  (s.remove id).2.sparseAt k = s.sparseAt k))) ∧
          (d = s.dense.length - 1 →
            (s.remove id).1 = s.dense[d]? ∧
              (s.remove id).2.dense = s.dense.dropLast ∧
              (s.remove id).2.entities = s.entities.dropLast ∧
              (s.remove id).2.sparseAt id = none ∧
              (∀ k, k ≠ id → (s.remove id).2.sparseAt k = s.sparseAt k))) := by
  constructor
  · intro hab
    exact SparseSet.remove_eq_absent s id hab
  · intro hinv d hat
    obtain ⟨hlen, hfwd, hbwd⟩ := hinv
    obtain ⟨ed, hed, hedid⟩ := hfwd id d hat
    have hd_lt : d < s.entities.length := SparseSet.getElem?_lt_length hed
    have hLpos : 0 < s.dense.length := by omega
    obtain ⟨li, hlastd⟩ : ∃ x, s.dense.getLast? = some x := by
      rw [List.getLast?_eq_getElem?]
      exact ⟨_, List.getElem?_eq_getElem (by omega)⟩
    obtain ⟨le, hlaste⟩ : ∃ x, s.entities.getLast? = some x := by
      rw [List.getLast?_eq_getElem?]
      exact ⟨_, List.getElem?_eq_getElem (by omega)⟩
    have hlee : s.entities[s.entities.length - 1]? = some le := by
      rw [← List.getLast?_eq_getElem?]
      exact hlaste
    have hlid : s.dense[s.dense.length - 1]? = some li := by
      rw [← List.getLast?_eq_getElem?]
      exact hlastd
    have hble := hbwd (s.entities.length - 1) le hlee
    have hid_lt : id < s.sparse.length := SparseSet.sparseAt_some_lt hat
    constructor
    · intro hdl
      rw [SparseSet.remove_eq_swap s id d li le hat hlastd hlaste hdl]
      have hd_lt' : d < s.dense.length - 1 := by omega
      have hle_ne : le.id ≠ id := by
        intro hcontra
        have hb2 := hble
        rw [hcontra, hat] at hb2
        have : d = s.entities.length - 1 := Option.some.inj hb2
        omega
      have hle_lt : le.id < s.sparse.length := SparseSet.sparseAt_some_lt hble
      obtain ⟨dv, hdv⟩ : ∃ x, s.dense[d]? = some x := by
        exact ⟨_, List.getElem?_eq_getElem (by omega)⟩
      refine ⟨?_, by simp, by simp, ?_, ?_, ?_, ?_, ?_⟩
      · show some (s.dense.getD d li) = s.dense[d]?
        rw [List.getD_eq_getElem?_getD, hdv]
        rfl
      · show ((s.dense.dropLast).set d li)[d]? = s.dense[s.dense.length - 1]?
        rw [List.getElem?_set_self (by simp; omega), hlid]
      · show ((s.entities.dropLast).set d le)[d]? = s.entities[s.entities.length - 1]?
        rw [List.getElem?_set_self (by simp; omega), hlee]
      · intro k hk
        constructor
        · show ((s.dense.dropLast).set d li)[k]? = (s.dense.dropLast)[k]?
          rw [List.getElem?_set_ne (by omega)]
        · show ((s.entities.dropLast).set d le)[k]? = (s.entities.dropLast)[k]?
          rw [List.getElem?_set_ne (by omega)]
      · rw [SparseSet.sparseAt_mk]
        rw [List.getElem?_set_self (by simpa using hid_lt)]
        rfl
      · intro le2 hle2
        have hle2e : le2 = le := Option.some.inj (hle2.symm.trans hlee)
        subst hle2e
        constructor
        · rw [SparseSet.sparseAt_mk]
          rw [List.getElem?_set_ne (by omega), List.getElem?_set_self hle_lt]
          rfl
        · intro k hk1 hk2
          rw [SparseSet.sparseAt_mk]
          rw [List.getElem?_set_ne (by omega), List.getElem?_set_ne (by omega)]
          rfl
    · intro hdl
      rw [SparseSet.remove_eq_last s id d li le hat hlastd hlaste hdl]
      refine ⟨?_, rfl, rfl, ?_, ?_⟩
      · show some li = s.dense[d]?
        rw [hdl, hlid]
      · rw [SparseSet.sparseAt_mk]
        rw [List.getElem?_set_self (by simpa using hid_lt)]
        rfl
      · intro k hk
        rw [SparseSet.sparseAt_mk]
        rw [List.getElem?_set_ne (by omega)]
        rfl

/-!
Query engine (`query/mod.rs`).  A query over `n` component types resolves each
type to its sparse set (`QueryItem::get_storage`); the generated
`Iterator::next` then picks the smallest `entities` slice of the participating
sets, walks it from the stored cursor `entity_index`, and yields the first
entity for which every set's `get`/`get_mut` returns a value.  Heterogeneous
component types are modelled with a single value type `V` (the per-type values
of a row are collected into a `List V`); the structure of the algorithm does
not depend on the value types.
-/

/-- The `smallest_slice` fold from the generated `next()`: the first strictly
smaller `entities` slice wins, starting from the first set's slice.  (The
source `unwrap`s a nonempty list of participating sets; `[]` is totalised to
the empty slice.) -/
def smallestEntities : List (SparseSet V) → List Entity
  | [] => []
  | st :: rest =>
      rest.foldl (fun best cur => if cur.entities.length < best.length then cur.entities else best)
        st.entities

/-- The `($name::get_from_storage($name, id))+` matched against all-`Some`: probe
every participating set by entity id; succeed only when all probes succeed. -/
def probeAll (sts : List (SparseSet V)) (id : Nat) : Option (List V) :=
  match sts with
  | [] => some []
  | st :: rest =>
      match st.get id, probeAll rest id with
      | some v, some vs => some (v :: vs)
      | _, _ => none

/-- The `while self.entity_index < entities_to_iterate.len()` loop of `next()`
from cursor `ix`: the remaining driver suffix is walked, returning the first
full row and the advanced cursor. -/
def scanFrom (sts : List (SparseSet V)) : List Entity → Nat → Option (List V × Nat)
  | [], _ => none
  | e :: rest, ix =>
      match probeAll sts e.id with
      | some row => some (row, ix + 1)
      | none => scanFrom sts rest (ix + 1)

/-- The `let $name = $name::get_storage(...)?` over all requested types: `none`
for a type that has no storage registered. -/
def allSome : List (Option α) → Option (List α)
  | [] => some []
  | none :: _ => none
  | some a :: rest => (allSome rest).map (a :: ·)

/-- One `next()` call of the query iterator: resolve storages (`?`-failing to
`none`), re-select the smallest entities slice from the sizes at this call,
and scan from the cursor. -/
def queryNext (stOpts : List (Option (SparseSet V))) (ix : Nat) : Option (List V × Nat) :=
  match allSome stOpts with
  | none => none
  | some sts => scanFrom sts ((smallestEntities sts).drop ix) ix

/-- All rows produced by walking a driver suffix to exhaustion. -/
def collectRows (sts : List (SparseSet V)) : List Entity → List (List V)
  | [] => []
  | e :: rest =>
      match probeAll sts e.id with
      | some row => row :: collectRows sts rest
      | none => collectRows sts rest

/-- The full yield sequence of one query pass (repeated `next()` until
`None`), over a fixed registry state. -/
def queryRows (stOpts : List (Option (SparseSet V))) : List (List V) :=
  match allSome stOpts with
  | none => []
  | some sts => collectRows sts (smallestEntities sts)

/-- The ids of the driver entities whose probe succeeds, in driver order. -/
def yieldedIds (sts : List (SparseSet V)) : List Nat :=
  ((smallestEntities sts).filter (fun e => (probeAll sts e.id).isSome)).map Entity.id

/-- The entity ids stored in one sparse set. -/
def idFinset (st : SparseSet V) : Finset Nat :=
  (st.entities.map Entity.id).toFinset

/-- The intersection of the id sets of a nonempty list of sparse sets. -/
def interIds (st : SparseSet V) (rest : List (SparseSet V)) : Finset Nat :=
  rest.foldl (fun acc u => acc ∩ idFinset u) (idFinset st)

/-- Each step of `collectRows` agrees with `scanFrom`: the row sequence is
exactly what successive `next()` calls yield. -/
theorem collectRows_scanFrom (sts : List (SparseSet V)) (suffix : List Entity) (ix : Nat) :
    (scanFrom sts suffix ix = none → collectRows sts suffix = []) ∧
      (∀ row ix', scanFrom sts suffix ix = some (row, ix') →
        ix < ix' ∧ ix' - ix ≤ suffix.length ∧
          collectRows sts suffix = row :: collectRows sts (suffix.drop (ix' - ix))) := by
  induction suffix generalizing ix with
  | nil => exact ⟨fun _ => rfl, fun row ix' h => by simp [scanFrom] at h⟩
  | cons e rest ih =>
      constructor
      · intro h
        rw [scanFrom] at h
        cases hp : probeAll sts e.id with
        | some row => rw [hp] at h; exact absurd h (by simp)
        | none =>
            rw [hp] at h
            rw [collectRows, hp]
            exact ((ih (ix + 1)).1 h)
      · intro row ix' h
        rw [scanFrom] at h
        cases hp : probeAll sts e.id with
        | some row0 =>
            rw [hp] at h
            have h1 : row0 = row ∧ ix + 1 = ix' := by
              have := Option.some.inj h
              exact ⟨(Prod.mk.injEq _ _ _ _ ▸ this).1, (Prod.mk.injEq _ _ _ _ ▸ this).2⟩
            obtain ⟨hrow, hix⟩ := h1
            subst hrow
            refine ⟨by omega, by simp; omega, ?_⟩
            rw [collectRows, hp]
            have : ix' - ix = 1 := by omega
            rw [this]
            rfl
        | none =>
            rw [hp] at h
            obtain ⟨hlt, hle, heq⟩ := (ih (ix + 1)).2 row ix' h
            refine ⟨by omega, by simp; omega, ?_⟩
            rw [collectRows, hp, heq]
            have : ix' - ix = (ix' - (ix + 1)) + 1 := by omega
            rw [this]
            rfl

theorem allSome_map_some (l : List α) : allSome (l.map some) = some l := by
  induction l with
  | nil => rfl
  | cons a rest ih => simp [allSome, ih]

theorem allSome_of_mem_none (l : List (Option α)) (h : none ∈ l) : allSome l = none := by
  induction l with
  | nil => simp at h
  | cons o rest ih =>
      cases o with
      | none => rfl
      | some a =>
          simp at h
          rw [allSome, ih h]
          rfl

/-- The fold in `next()` returns one of the participating slices, of minimal
length. -/
theorem smallestEntities_spec (st : SparseSet V) (rest : List (SparseSet V)) :
    smallestEntities (st :: rest) ∈ (st :: rest).map (fun u => u.entities) ∧
      ∀ u, u ∈ st :: rest → (smallestEntities (st :: rest)).length ≤ u.entities.length := by
  suffices hgen : ∀ (l : List (SparseSet V)) (best : List Entity),
      (l.foldl (fun b cur => if cur.entities.length < b.length then cur.entities else b) best = best
        ∨ l.foldl (fun b cur => if cur.entities.length < b.length then cur.entities else b) best
            ∈ l.map (fun u => u.entities)) ∧
      (l.foldl (fun b cur => if cur.entities.length < b.length then cur.entities else b) best).length
          ≤ best.length ∧
      ∀ u, u ∈ l →
        (l.foldl (fun b cur => if cur.entities.length < b.length then cur.entities else b) best).length
          ≤ u.entities.length by
    obtain ⟨hmem, hlen, hall⟩ := hgen rest st.entities
    constructor
    · rw [smallestEntities]
      rcases hmem with hmem | hmem
      · rw [hmem]; simp
      · simp only [List.map_cons, List.mem_cons]
        right
        exact hmem
    · intro u hu
      rw [List.mem_cons] at hu
      rcases hu with hu | hu
      · rw [hu, smallestEntities]
        exact hlen
      · rw [smallestEntities]
        exact hall u hu
  intro l
  induction l with
  | nil => exact fun best => ⟨Or.inl rfl, le_refl _, fun u hu => by simp at hu⟩
  | cons c cs ih =>
      intro best
      refine ⟨?_, ?_, ?_⟩
      · rcases (ih (if c.entities.length < best.length then c.entities else best)).1 with h | h
        · by_cases hc : c.entities.length < best.length
          · right
            rw [List.foldl_cons, h, if_pos hc]
            simp
          · left
            rw [List.foldl_cons, h, if_neg hc]
        · right
          rw [List.foldl_cons]
          simp only [List.map_cons, List.mem_cons]
          right
          exact h
      · have h2 := (ih (if c.entities.length < best.length then c.entities else best)).2.1
        rw [List.foldl_cons]
        by_cases hc : c.entities.length < best.length
        · rw [if_pos hc] at h2 ⊢
          omega
        · rw [if_neg hc] at h2 ⊢
          exact h2
      · intro u hu
        rw [List.mem_cons] at hu
        rw [List.foldl_cons]
        rcases hu with hu | hu
        · have h2 := (ih (if c.entities.length < best.length then c.entities else best)).2.1
          by_cases hc : c.entities.length < best.length
          · rw [if_pos hc] at h2 ⊢
            rw [hu]
            exact h2
          · rw [if_neg hc] at h2 ⊢
            rw [hu]
            omega
        · exact (ih _).2.2 u hu

theorem get_eq_dense (s : SparseSet V) {id j : Nat} (h : s.sparseAt id = some j) :
    s.get id = s.dense[j]? := by
  have h1 : id < s.sparse.length := SparseSet.sparseAt_some_lt h
  rw [SparseSet.get, if_neg (by omega),
    show (s.sparse[id]?).getD none = some j from h]

theorem get_eq_none (s : SparseSet V) {id : Nat} (h : s.sparseAt id = none) :
    s.get id = none := by
  by_cases h1 : s.sparse.length ≤ id
  · rw [SparseSet.get, if_pos h1]
  · rw [SparseSet.get, if_neg h1, show (s.sparse[id]?).getD none = none from h]

/-- Under the invariant, `get` succeeds exactly for the ids recorded in the
entities array. -/
theorem get_isSome_iff (s : SparseSet V) (hinv : s.Inv) (id : Nat) :
    (s.get id).isSome = true ↔ id ∈ s.entities.map Entity.id := by
  obtain ⟨hlen, hfwd, hbwd⟩ := hinv
  constructor
  · intro h
    cases hat : s.sparseAt id with
    | none => rw [get_eq_none s hat] at h; simp at h
    | some j =>
        obtain ⟨e, he, heid⟩ := hfwd id j hat
        rw [List.mem_map]
        exact ⟨e, List.mem_iff_getElem?.mpr ⟨j, he⟩, heid⟩
  · intro h
    rw [List.mem_map] at h
    obtain ⟨e, he, heid⟩ := h
    obtain ⟨j, hj⟩ := List.mem_iff_getElem?.mp he
    have hat : s.sparseAt id = some j := by rw [← heid]; exact hbwd j e hj
    rw [get_eq_dense s hat]
    have : j < s.dense.length := by
      have := SparseSet.getElem?_lt_length hj
      omega
    rw [List.getElem?_eq_getElem this]
    rfl

/-- Under the invariant, the entities array holds pairwise distinct entities. -/
theorem entities_nodup (s : SparseSet V) (hinv : s.Inv) : s.entities.Nodup := by
  obtain ⟨hlen, hfwd, hbwd⟩ := hinv
  rw [List.nodup_iff_injective_get]
  intro a b hab
  have ha : s.entities[a.val]? = some (s.entities.get a) := by
    rw [List.getElem?_eq_getElem a.isLt]
    simp
  have hb : s.entities[b.val]? = some (s.entities.get b) := by
    rw [List.getElem?_eq_getElem b.isLt]
    simp
  have h1 := hbwd a.val (s.entities.get a) ha
  have h2 := hbwd b.val (s.entities.get b) hb
  rw [hab] at h1
  have := Option.some.inj (h1.symm.trans h2)
  exact Fin.ext this
/-- Under the invariant, stored entity ids are pairwise distinct. -/
theorem ids_nodup (s : SparseSet V) (hinv : s.Inv) : (s.entities.map Entity.id).Nodup := by
  refine (entities_nodup s hinv).map_on ?_
  intro x hx y hy hxy
  obtain ⟨hlen, hfwd, hbwd⟩ := hinv
  obtain ⟨jx, hjx⟩ := List.mem_iff_getElem?.mp hx
  obtain ⟨jy, hjy⟩ := List.mem_iff_getElem?.mp hy
  have h1 := hbwd jx x hjx
  have h2 := hbwd jy y hjy
  rw [hxy] at h1
  have hj : jx = jy := Option.some.inj (h1.symm.trans h2)
  rw [hj] at hjx
  exact Option.some.inj (hjx.symm.trans hjy)

theorem probeAll_isSome_iff (sts : List (SparseSet V)) (id : Nat) :
    (probeAll sts id).isSome = true ↔ ∀ u ∈ sts, (u.get id).isSome = true := by
  induction sts with
  | nil => simp [probeAll]
  | cons c cs ih =>
      constructor
      · intro h
        rw [probeAll] at h
        cases hc : c.get id with
        | none => rw [hc] at h; simp at h
        | some v =>
            rw [hc] at h
            cases hcs : probeAll cs id with
            | none => rw [hcs] at h; simp at h
            | some vs =>
                intro u hu
                rw [List.mem_cons] at hu
                rcases hu with hu | hu
                · rw [hu, hc]; rfl
                · exact ih.mp (by rw [hcs]; rfl) u hu
      · intro h
        rw [probeAll]
        cases hc : c.get id with
        | none =>
            exfalso
            have h0 := h c (by simp)
            rw [hc] at h0
            simp at h0
        | some v =>
            have hcs : (probeAll cs id).isSome = true :=
              ih.mpr (fun u hu => h u (by simp [hu]))
            cases hcs2 : probeAll cs id with
            | none => rw [hcs2] at hcs; simp at hcs
            | some vs => rfl

theorem collectRows_length (sts : List (SparseSet V)) (driver : List Entity) :
    (collectRows sts driver).length
      = ((driver.filter (fun e => (probeAll sts e.id).isSome)).map Entity.id).length := by
  induction driver with
  | nil => rfl
  | cons e rest ih =>
      rw [collectRows]
      cases hp : probeAll sts e.id with
      | some row => simp [List.filter_cons, hp, ih]
      | none => simp [List.filter_cons, hp, ih]

theorem mem_foldl_inter (l : List (SparseSet V)) (acc : Finset Nat) (id : Nat) :
    (id ∈ l.foldl (fun a u => a ∩ idFinset u) acc) ↔ (id ∈ acc ∧ ∀ u ∈ l, id ∈ idFinset u) := by
  induction l generalizing acc with
  | nil => simp
  | cons c cs ih =>
      rw [List.foldl_cons, ih]
      simp only [Finset.mem_inter, List.mem_cons]
      constructor
      · rintro ⟨⟨h1, h2⟩, h3⟩
        refine ⟨h1, fun u hu => ?_⟩
        rcases hu with hu | hu
        · rw [hu]; exact h2
        · exact h3 u hu
      · rintro ⟨h1, h2⟩
        exact ⟨⟨h1, h2 c (Or.inl rfl)⟩, fun u hu => h2 u (Or.inr hu)⟩

theorem mem_yieldedIds_iff (st : SparseSet V) (rest : List (SparseSet V))
    (hinv : ∀ u ∈ st :: rest, u.Inv) (id : Nat) :
    id ∈ yieldedIds (st :: rest) ↔ ∀ u ∈ st :: rest, id ∈ idFinset u := by
  obtain ⟨hdmem, hdmin⟩ := smallestEntities_spec st rest
  rw [List.mem_map] at hdmem
  obtain ⟨stD, hstD, hDeq⟩ := hdmem
  constructor
  · intro h
    rw [yieldedIds, List.mem_map] at h
    obtain ⟨e, he, heid⟩ := h
    rw [List.mem_filter] at he
    obtain ⟨hedriver, hprobe⟩ := he
    intro u hu
    have hg : (u.get id).isSome = true := by
      rw [← heid]
      exact (probeAll_isSome_iff (st :: rest) e.id).mp hprobe u hu
    rw [idFinset, List.mem_toFinset]
    exact (get_isSome_iff u (hinv u hu) id).mp hg
  · intro h
    have hidD := h stD hstD
    rw [idFinset, List.mem_toFinset, List.mem_map] at hidD
    obtain ⟨e, he, heid⟩ := hidD
    rw [yieldedIds, List.mem_map]
    refine ⟨e, ?_, heid⟩
    rw [List.mem_filter]
    refine ⟨hDeq ▸ he, ?_⟩
    rw [probeAll_isSome_iff]
    intro u hu
    have hmem : id ∈ idFinset u := h u hu
    rw [idFinset, List.mem_toFinset] at hmem
    rw [heid]
    exact (get_isSome_iff u (hinv u hu) id).mpr hmem

theorem yieldedIds_nodup (st : SparseSet V) (rest : List (SparseSet V))
    (hinv : ∀ u ∈ st :: rest, u.Inv) : (yieldedIds (st :: rest)).Nodup := by
  obtain ⟨hdmem, _⟩ := smallestEntities_spec st rest
  rw [List.mem_map] at hdmem
  obtain ⟨stD, hstD, hDeq⟩ := hdmem
  have h1 : (stD.entities.map Entity.id).Nodup := ids_nodup stD (hinv stD hstD)
  rw [yieldedIds, ← hDeq]
  exact List.Nodup.sublist (List.Sublist.map Entity.id (List.filter_sublist _)) h1

/-- Concrete sparse set used by witnesses: three entities with ids 0, 1, 2. -/
def sampleSS : SparseSet Nat :=
  ⟨[10, 11, 12], [⟨0, 1⟩, ⟨1, 1⟩, ⟨2, 1⟩], [some 0, some 1, some 2]⟩

/-- Concrete sparse set holding a value for entity id 0 only. -/
def ssA1 : SparseSet Nat := ⟨[1], [⟨0, 1⟩], [some 0]⟩

/-- The `ssA1` after two more ids (1 and 2) were inserted. -/
def ssA3 : SparseSet Nat := ⟨[1, 2, 3], [⟨0, 1⟩, ⟨1, 1⟩, ⟨2, 1⟩], [some 0, some 1, some 2]⟩

/-- Concrete sparse set holding values for entity ids 1 and 2. -/
def ssB2 : SparseSet Nat := ⟨[5, 6], [⟨1, 1⟩, ⟨2, 1⟩], [none, some 0, some 1]⟩

/-- Concrete sparse set holding values for entity ids 0 and 2. -/
def tagSS : SparseSet Nat := ⟨[100, 102], [⟨0, 1⟩, ⟨2, 1⟩], [some 0, none, some 1]⟩

/-- C1 counterexample: the driver is not fixed at query construction.  The
constructed iterator records only a cursor, and each `next()` call re-selects
the smallest entities slice from the sizes presented at that call: with the
participating sets sized as at construction time (`ssA1`, `ssB2`) the smallest
slice is `ssA1.entities`, yet a step performed when the same sets are sized as
`ssA3`, `ssB2` drives the iteration by `ssB2.entities` and yields a row that a
driver fixed to the construction-time choice would not yield. -/
theorem query_driver_not_fixed_counterexample :
    smallestEntities [ssA3, ssB2] ≠ smallestEntities [ssA1, ssB2] ∧
      queryNext [some ssA3, some ssB2] 0
        ≠ scanFrom [ssA3, ssB2] ((smallestEntities [ssA1, ssB2]).drop 0) 0 := by
  constructor
  · decide
  · decide

/-- C1 (amended): on every `next()` call the iteration driver is re-selected
as the smallest of the participating sets' entity lists at that call — it is
one of the participating lists and no participating list is shorter; because a
query pass holds the registry exclusively, every step of one pass selects the
same driver that the sizes at construction time determine. -/
theorem query_driver_smallest_each_step (st : SparseSet V) (rest : List (SparseSet V)) :
    smallestEntities (st :: rest) ∈ (st :: rest).map (fun u => u.entities) ∧
      (∀ u, u ∈ st :: rest → (smallestEntities (st :: rest)).length ≤ u.entities.length) ∧
      (∀ ix, queryNext ((st :: rest).map some) ix
        = scanFrom (st :: rest) ((smallestEntities (st :: rest)).drop ix) ix) := by
  refine ⟨(smallestEntities_spec st rest).1, (smallestEntities_spec st rest).2, ?_⟩
  intro ix
  rw [queryNext, allSome_map_some]

/-- Witness for `query_driver_smallest_each_step` at the sets `ssA1`, `ssB2`. -/
theorem query_driver_smallest_witness :
    (ssB2 ∈ [ssA1, ssB2]) ∧
      (smallestEntities [ssA1, ssB2]).length ≤ ssB2.entities.length ∧
      smallestEntities [ssA1, ssB2] ∈ [ssA1, ssB2].map (fun u => u.entities) ∧
      queryNext ([ssA1, ssB2].map some) 0
        = scanFrom [ssA1, ssB2] ((smallestEntities [ssA1, ssB2]).drop 0) 0 := by
  have h := query_driver_smallest_each_step ssA1 [ssB2]
  exact ⟨by simp, h.2.1 ssB2 (by simp), h.1, h.2.2 0⟩

/-- C2: over a fixed state whose participating sets all satisfy the
invariant, one query pass yields one row per entity id in the intersection of
the participating sets' id sets — the yielded ids are duplicate-free, their
set is exactly the intersection, and the row count is the intersection's
cardinality; a query whose storage resolution fails for any requested type
yields nothing. -/
theorem query_yields_intersection (st : SparseSet V) (rest : List (SparseSet V))
    (hinv : ∀ u ∈ st :: rest, u.Inv) :
    (queryRows ((st :: rest).map some)).length = (interIds st rest).card ∧
      (yieldedIds (st :: rest)).Nodup ∧
      (yieldedIds (st :: rest)).toFinset = interIds st rest ∧
      (queryRows ((st :: rest).map some)).length = (yieldedIds (st :: rest)).length ∧
      (∀ stOpts : List (Option (SparseSet V)), none ∈ stOpts →
        queryRows stOpts = [] ∧ ∀ ix, queryNext stOpts ix = none) := by
  have hnodup := yieldedIds_nodup st rest hinv
  have hfin : (yieldedIds (st :: rest)).toFinset = interIds st rest := by
    apply Finset.ext
    intro id
    rw [List.mem_toFinset, mem_yieldedIds_iff st rest hinv id, interIds, mem_foldl_inter,
      List.forall_mem_cons]
  have hrows : queryRows ((st :: rest).map some)
      = collectRows (st :: rest) (smallestEntities (st :: rest)) := by
    rw [queryRows, allSome_map_some]
  have hlen2 : (queryRows ((st :: rest).map some)).length = (yieldedIds (st :: rest)).length := by
    rw [hrows, collectRows_length]
    rfl
  refine ⟨?_, hnodup, hfin, hlen2, ?_⟩
  · rw [hlen2, ← List.toFinset_card_of_nodup hnodup, hfin]
  · intro stOpts hnone
    constructor
    · rw [queryRows, allSome_of_mem_none stOpts hnone]
    · intro ix
      rw [queryNext, allSome_of_mem_none stOpts hnone]

/-- Witness for `query_yields_intersection`: three entities hold a value in
`sampleSS` and two of them (ids 0 and 2) in `tagSS`; the two-set query yields
exactly 2 rows, the overlap's cardinality. -/
theorem query_intersection_witness :
    (∀ u ∈ [sampleSS, tagSS], u.Inv) ∧
      (queryRows ([sampleSS, tagSS].map some)).length = (interIds sampleSS [tagSS]).card ∧
      (interIds sampleSS [tagSS]).card = 2 := by
  have hinv : ∀ u ∈ [sampleSS, tagSS], u.Inv := by
    intro u hu
    simp only [List.mem_cons, List.mem_singleton] at hu
    rcases hu with h | h
    · rw [h]; exact SparseSet.inv_of_invCheck sampleSS (by decide)
    · rcases h with h | h
      · rw [h]; exact SparseSet.inv_of_invCheck tagSS (by decide)
      · simp at h
  have h := query_yields_intersection sampleSS [tagSS] hinv
  exact ⟨hinv, h.1, by decide⟩

/-- Witness for `remove_swap_characterisation`: removing id 1 (a non-last
slot) of the sample set returns value 11, clears `sparse[1]`, and repoints
entity 2 to slot 1. -/
theorem remove_swap_witness :
    sampleSS.Inv ∧ sampleSS.sparseAt 1 = some 1 ∧ 1 ≠ sampleSS.dense.length - 1 ∧
      (sampleSS.remove 1).1 = sampleSS.dense[1]? ∧
      (sampleSS.remove 1).2.sparseAt 1 = none ∧
      (sampleSS.remove 1).2.sparseAt 2 = some 1 := by
  have hinv : sampleSS.Inv := SparseSet.inv_of_invCheck sampleSS (by decide)
  have h := ((remove_swap_characterisation sampleSS 1).2 hinv 1 rfl).1 (by decide)
  refine ⟨hinv, rfl, by decide, h.1, h.2.2.2.2.2.2.1, ?_⟩
  exact (h.2.2.2.2.2.2.2 ⟨2, 1⟩ rfl).1

/-!
Registry facade (`registry/mod.rs`).  `TypeId` keys are modelled as `Nat`;
the `HashMap<TypeId, Box<dyn ComponentStorage>>` is an association list with
unique keys, and the type-erased storages use the single value type `V` (the
`downcast` of a storage found under its own type's key always succeeds).
-/

/-- A `TypeId`, modelled as a `Nat` key. -/
abbrev TypeKey := Nat

/-- The `HashMap::get` on the component map. -/
def lookupStorage : List (TypeKey × SparseSet V) → TypeKey → Option (SparseSet V)
  | [], _ => none
  | (k, st) :: rest, tk => if k = tk then some st else lookupStorage rest tk

/-- Store back a storage under a key (`entry(..).or_insert_with(..)` followed
by the in-place mutation): replace the existing entry or create it. -/
def setStorage : List (TypeKey × SparseSet V) → TypeKey → SparseSet V →
    List (TypeKey × SparseSet V)
  | [], tk, st => [(tk, st)]
  | (k, s0) :: rest, tk, st =>
      if k = tk then (k, st) :: rest else (k, s0) :: setStorage rest tk st

/-- The `Registry` state relevant to the entity/component claims: the entity
manager and the per-type component storages.  (Resources and systems are
modelled separately below.) -/
structure Registry (V : Type) where
  entity_manager : EntityManager
  components : List (TypeKey × SparseSet V)
deriving DecidableEq

namespace Registry

/-- The `Registry::add_component`: reject an invalid entity before touching any
storage; otherwise get-or-create the type's sparse set and insert.  The pair
returns the `Result` together with the post state. -/
def add_component (r : Registry V) (tk : TypeKey) (e : Entity) (v : V) :
    Except RecsError Unit × Registry V :=
  if r.entity_manager.is_valid e then
    (.ok (),
      ⟨r.entity_manager,
        setStorage r.components tk
          (((lookupStorage r.components tk).getD SparseSet.empty).insert e v)⟩)
  else
    (.error (.InvalidEntity e), r)

/-- The `Registry::get_component`: empty for an invalid entity, else resolve the
type's storage and read through it. -/
def get_component (r : Registry V) (tk : TypeKey) (e : Entity) : Option V :=
  if r.entity_manager.is_valid e then
    match lookupStorage r.components tk with
    | some st => st.get e.id
    | none => none
  else none

/-- The `Registry::destroy_entity`: destroy in the entity manager (propagating its
error before any storage is touched), then `remove_by_id` in every storage. -/
def destroy_entity (r : Registry V) (e : Entity) : Except RecsError Unit × Registry V :=
  match r.entity_manager.destroy_entity e with
  | .error err => (.error err, r)
  | .ok em' =>
      (.ok (), ⟨em', r.components.map (fun p => (p.1, (p.2.remove e.id).2))⟩)

end Registry

theorem lookupStorage_map (cs : List (TypeKey × SparseSet V)) (tk : TypeKey)
    (f : SparseSet V → SparseSet V) :
    lookupStorage (cs.map (fun p => (p.1, f p.2))) tk = (lookupStorage cs tk).map f := by
  induction cs with
  | nil => rfl
  | cons p rest ih =>
      rw [List.map_cons]
      by_cases hk : p.1 = tk
      · rw [show lookupStorage ((p.1, f p.2) :: rest.map (fun q => (q.1, f q.2))) tk
            = some (f p.2) from by rw [lookupStorage, if_pos hk]]
        rw [show lookupStorage (p :: rest) tk = some p.2 from by
          rw [show p = (p.1, p.2) from rfl, lookupStorage, if_pos hk]]
        rfl
      · rw [show lookupStorage ((p.1, f p.2) :: rest.map (fun q => (q.1, f q.2))) tk
            = lookupStorage (rest.map (fun q => (q.1, f q.2))) tk from by
          rw [lookupStorage, if_neg hk]]
        rw [show lookupStorage (p :: rest) tk = lookupStorage rest tk from by
          rw [show p = (p.1, p.2) from rfl, lookupStorage, if_neg hk]]
        exact ih

theorem lookupStorage_remove (cs : List (TypeKey × SparseSet V)) (tk : TypeKey) (id : Nat) :
    lookupStorage (cs.map (fun p => (p.1, (p.2.remove id).2))) tk
      = (lookupStorage cs tk).map (fun s => (s.remove id).2) := by
  exact lookupStorage_map cs tk (fun s => (s.remove id).2)

/-- After `remove id`, `get id` on an invariant-satisfying sparse set is
empty. -/
theorem get_remove_self (s : SparseSet V) (id : Nat) (h : s.Inv) :
    ((s.remove id).2).get id = none := by
  obtain ⟨hlen, hfwd, hbwd⟩ := h
  cases hat : s.sparseAt id with
  | none =>
      rw [SparseSet.remove_eq_absent s id hat]
      exact get_eq_none s hat
  | some d =>
      obtain ⟨ed, hed, hedid⟩ := hfwd id d hat
      have hd_lt : d < s.entities.length := SparseSet.getElem?_lt_length hed
      have hLpos : 0 < s.dense.length := by omega
      have hid_lt : id < s.sparse.length := SparseSet.sparseAt_some_lt hat
      obtain ⟨li, hlastd⟩ : ∃ x, s.dense.getLast? = some x := by
        rw [List.getLast?_eq_getElem?]
        exact ⟨_, List.getElem?_eq_getElem (by omega)⟩
      obtain ⟨le, hlaste⟩ : ∃ x, s.entities.getLast? = some x := by
        rw [List.getLast?_eq_getElem?]
        exact ⟨_, List.getElem?_eq_getElem (by omega)⟩
      by_cases hdl : d = s.dense.length - 1
      · rw [SparseSet.remove_eq_last s id d li le hat hlastd hlaste hdl]
        apply get_eq_none
        rw [SparseSet.sparseAt_mk, List.getElem?_set_self (by simpa using hid_lt)]
        rfl
      · rw [SparseSet.remove_eq_swap s id d li le hat hlastd hlaste hdl]
        apply get_eq_none
        rw [SparseSet.sparseAt_mk, List.getElem?_set_self (by simpa using hid_lt)]
        rfl

/-- Destroying in the entity manager makes the handle invalid (helper shared
by the registry claims). -/
theorem is_valid_after_destroy (m : EntityManager) (e : Entity) (m' : EntityManager)
    (hd : m.destroy_entity e = .ok m') : m'.is_valid e = false := by
  have hv : m.is_valid e = true := by
    by_contra hv
    simp [EntityManager.destroy_entity, hv] at hd
  have hlt : e.id < m.generations.length := by
    simp [EntityManager.is_valid] at hv
    exact hv.1
  have hm' : m' = ⟨m.generations.set e.id (m.generations[e.id]?.getD 0 + 1),
      e.id :: m.free_list⟩ := by
    simp [EntityManager.destroy_entity, hv] at hd
    exact hd.symm
  have hg : m.generations[e.id]?.getD 0 = e.generation := by
    simp [EntityManager.is_valid] at hv
    exact hv.2
  simp only [EntityManager.is_valid, Bool.and_eq_false_iff]
  right
  rw [hm']
  show ((m.generations.set e.id (m.generations[e.id]?.getD 0 + 1)).getD e.id 0
      == e.generation) = false
  simp only [List.getD_eq_getElem?_getD]
  rw [List.getElem?_set_self (by simpa using hlt)]
  simp only [Option.getD_some, hg, beq_eq_false_iff_ne, ne_eq]
  omega

/-- C6: destroying a valid entity succeeds and purges the entity's id from
every component storage (both at the storage level and through
`get_component`); destroying an invalid entity is an `InvalidEntity` error
that modifies nothing. -/
theorem destroy_entity_purges_components (r : Registry V) (e : Entity)
    (hinv : ∀ tk st, lookupStorage r.components tk = some st → st.Inv) :
    (r.entity_manager.is_valid e = true →
      (r.destroy_entity e).1 = .ok () ∧
        (∀ tk st', lookupStorage (r.destroy_entity e).2.components tk = some st' →
          st'.get e.id = none) ∧
        (∀ tk, Registry.get_component (r.destroy_entity e).2 tk e = none)) ∧
      (r.entity_manager.is_valid e = false →
        r.destroy_entity e = (.error (.InvalidEntity e), r)) := by
  constructor
  · intro hv
    have hem : r.entity_manager.destroy_entity e
        = .ok ⟨r.entity_manager.generations.set e.id
            (r.entity_manager.generations[e.id]?.getD 0 + 1),
            e.id :: r.entity_manager.free_list⟩ := by
      simp [EntityManager.destroy_entity, hv]
    have hde : r.destroy_entity e
        = (.ok (),
            ⟨⟨r.entity_manager.generations.set e.id
                (r.entity_manager.generations[e.id]?.getD 0 + 1),
              e.id :: r.entity_manager.free_list⟩,
              r.components.map (fun p => (p.1, (p.2.remove e.id).2))⟩) := by
      rw [Registry.destroy_entity, hem]
    refine ⟨by rw [hde], ?_, ?_⟩
    · intro tk st' hst'
      rw [hde] at hst'
      simp only at hst'
      rw [lookupStorage_remove] at hst'
      cases hlk : lookupStorage r.components tk with
      | none => rw [hlk] at hst'; simp at hst'
      | some st0 =>
          rw [hlk] at hst'
          have hst2 : some ((st0.remove e.id).2) = some st' := hst'
          have hst0 : st' = (st0.remove e.id).2 := (Option.some.inj hst2).symm
          rw [hst0]
          exact get_remove_self st0 e.id (hinv tk st0 hlk)
    · intro tk
      have hinvalid : (r.destroy_entity e).2.entity_manager.is_valid e = false := by
        rw [hde]
        exact is_valid_after_destroy r.entity_manager e _ hem
      rw [Registry.get_component, if_neg (by simp [hinvalid])]
  · intro hv
    have hem : r.entity_manager.destroy_entity e = .error (.InvalidEntity e) := by
      simp [EntityManager.destroy_entity, hv]
    rw [Registry.destroy_entity, hem]

/-- Concrete registry used by witnesses: one live entity `(0, 1)` carrying
the value 42 under the component key 0. -/
def sampleReg : Registry Nat :=
  ⟨⟨[1], []⟩, [(0, ⟨[42], [⟨0, 1⟩], [some 0]⟩)]⟩

/-- Witness for `destroy_entity_purges_components`: destroying entity `(0,1)`
of the sample registry succeeds and empties its component lookups. -/
theorem destroy_entity_purges_witness :
    (∀ tk st, lookupStorage sampleReg.components tk = some st → st.Inv) ∧
      sampleReg.entity_manager.is_valid ⟨0, 1⟩ = true ∧
      (sampleReg.destroy_entity ⟨0, 1⟩).1 = .ok () ∧
      (∀ tk, Registry.get_component (sampleReg.destroy_entity ⟨0, 1⟩).2 tk ⟨0, 1⟩ = none) := by
  have hinv : ∀ tk st, lookupStorage sampleReg.components tk = some st → st.Inv := by
    intro tk st hst
    rw [show sampleReg.components = [(0, (⟨[42], [⟨0, 1⟩], [some 0]⟩ : SparseSet Nat))] from rfl,
      lookupStorage] at hst
    by_cases h0 : (0 : TypeKey) = tk
    · rw [if_pos h0] at hst
      have hs : st = ⟨[42], [⟨0, 1⟩], [some 0]⟩ := (Option.some.inj hst).symm
      rw [hs]
      exact SparseSet.inv_of_invCheck _ (by decide)
    · rw [if_neg h0] at hst
      exact absurd (show lookupStorage [] tk = some st from hst) (by rw [lookupStorage]; simp)
  have h := (destroy_entity_purges_components sampleReg ⟨0, 1⟩ hinv).1 (by decide)
  exact ⟨hinv, by decide, h.1, h.2.2⟩

/-- C9: `add_component` on an invalid entity returns `InvalidEntity` and
leaves the registry (in particular every component storage) unchanged — the
validity check precedes the lazy storage creation. -/
theorem add_component_invalid_entity (r : Registry V) (tk : TypeKey) (e : Entity) (v : V)
    (h : r.entity_manager.is_valid e = false) :
    r.add_component tk e v = (.error (.InvalidEntity e), r) := by
  rw [Registry.add_component, if_neg (by simp [h])]

/-- Witness for `add_component_invalid_entity`: adding to the stale entity
`(0, 7)` of the sample registry fails and changes nothing. -/
theorem add_component_invalid_witness :
    sampleReg.entity_manager.is_valid ⟨0, 7⟩ = false ∧
      sampleReg.add_component 1 ⟨0, 7⟩ 9 = (.error (.InvalidEntity ⟨0, 7⟩), sampleReg) :=
  ⟨by decide, add_component_invalid_entity sampleReg 1 ⟨0, 7⟩ 9 (by decide)⟩

/-!
System execution protocol (`system/mod.rs`, `resource/mod.rs`).  The
`ResourceStorage` map is an association list keyed by `TypeKey`; resource
values use the single value type `V`.  Each system parameter kind of the
source (`Query`, `Res`, `ResMut`, `OptionalRes`, `OptionalResMut`) is a
`SystemParamSpec`; `SystemParam::from_registry` is `fetchParam`, with the
`expect` panic on a missing mandatory resource modelled as `Except.error tk`
carrying the missing type named by the panic message. -/

/-- The `ResourceStorage` lookup (`resources.get::<R>()`). -/
def lookupResource : List (TypeKey × V) → TypeKey → Option V
  | [], _ => none
  | (k, v) :: rest, tk => if k = tk then some v else lookupResource rest tk

/-- The declared shape of one system parameter. -/
inductive SystemParamSpec where
  | res (tk : TypeKey)
  | resMut (tk : TypeKey)
  | optionalRes (tk : TypeKey)
  | optionalResMut (tk : TypeKey)
  | queryShape
deriving DecidableEq, Repr

/-- The value delivered for one parameter. -/
inductive FetchedParam (V : Type) where
  | resVal (v : V)
  | resMutVal (v : V)
  | optionalVal (v : Option V)
  | optionalMutVal (v : Option V)
  | queryView
deriving DecidableEq, Repr

/-- The resource type a parameter mandatorily requires, if any. -/
def mandatoryKey : SystemParamSpec → Option TypeKey
  | .res tk => some tk
  | .resMut tk => some tk
  | _ => none

/-- The `SystemParam::from_registry` for one parameter: mandatory handles
`expect`-panic (`Except.error tk`, naming the missing type) when the resource
is absent; optional handles always succeed, delivering the bare lookup; a
query parameter always binds a fresh view. -/
def fetchParam (rs : List (TypeKey × V)) : SystemParamSpec → Except TypeKey (FetchedParam V)
  | .res tk =>
      match lookupResource rs tk with
      | some v => .ok (.resVal v)
      | none => .error tk
  | .resMut tk =>
      match lookupResource rs tk with
      | some v => .ok (.resMutVal v)
      | none => .error tk
  | .optionalRes tk => .ok (.optionalVal (lookupResource rs tk))
  | .optionalResMut tk => .ok (.optionalMutVal (lookupResource rs tk))
  | .queryShape => .ok .queryView

/-- The `let $param = $param::from_registry(registry_ptr);` sequence of
`FunctionSystem::run`: parameters are fetched left to right, and the first
missing mandatory resource aborts the invocation. -/
def fetchParams (rs : List (TypeKey × V)) :
    List SystemParamSpec → Except TypeKey (List (FetchedParam V))
  | [] => .ok []
  | sp :: rest =>
      match fetchParam rs sp with
      | .error tk => .error tk
      | .ok p =>
          match fetchParams rs rest with
          | .error tk => .error tk
          | .ok ps => .ok (p :: ps)

/-- C7: if any declared mandatory resource parameter is missing from the
store, the invocation aborts fatally with a diagnostic naming a missing
mandatory resource type; if every mandatory resource is present the fetch
succeeds, and optional parameters are always delivered as the bare lookup
(empty when absent) without failing. -/
theorem mandatory_resource_missing_fatal (rs : List (TypeKey × V))
    (specs : List SystemParamSpec) :
    ((∃ sp ∈ specs, ∃ tk, mandatoryKey sp = some tk ∧ lookupResource rs tk = none) →
      ∃ tk', fetchParams rs specs = .error tk' ∧ lookupResource rs tk' = none ∧
        ∃ sp ∈ specs, mandatoryKey sp = some tk') ∧
      ((∀ sp ∈ specs, ∀ tk, mandatoryKey sp = some tk → (lookupResource rs tk).isSome = true) →
        ∃ ps, fetchParams rs specs = .ok ps) ∧
      (∀ tk, fetchParam rs (.optionalRes tk) = .ok (.optionalVal (lookupResource rs tk)) ∧
        fetchParam rs (.optionalResMut tk) = .ok (.optionalMutVal (lookupResource rs tk))) := by
  refine ⟨?_, ?_, fun tk => ⟨rfl, rfl⟩⟩
  · induction specs with
    | nil => rintro ⟨sp, hsp, _⟩; simp at hsp
    | cons sp0 rest ih =>
        rintro ⟨sp, hsp, tk, hmk, hlk⟩
        rw [List.mem_cons] at hsp
        cases hf : fetchParam rs sp0 with
        | error tk0 =>
            refine ⟨tk0, ?_, ?_, ?_⟩
            · rw [fetchParams, hf]
            · cases sp0 with
              | res tk1 =>
                  rw [fetchParam] at hf
                  cases hl1 : lookupResource rs tk1 with
                  | some v => rw [hl1] at hf; exact absurd hf (by simp)
                  | none =>
                      rw [hl1] at hf
                      have : tk1 = tk0 := Except.error.inj hf
                      rw [← this]
                      exact hl1
              | resMut tk1 =>
                  rw [fetchParam] at hf
                  cases hl1 : lookupResource rs tk1 with
                  | some v => rw [hl1] at hf; exact absurd hf (by simp)
                  | none =>
                      rw [hl1] at hf
                      have : tk1 = tk0 := Except.error.inj hf
                      rw [← this]
                      exact hl1
              | optionalRes tk1 => exact absurd hf (by rw [fetchParam]; simp)
              | optionalResMut tk1 => exact absurd hf (by rw [fetchParam]; simp)
              | queryShape => exact absurd hf (by rw [fetchParam]; simp)
            · refine ⟨sp0, List.mem_cons_self _ _, ?_⟩
              cases sp0 with
              | res tk1 =>
                  rw [fetchParam] at hf
                  cases hl1 : lookupResource rs tk1 with
                  | some v => rw [hl1] at hf; exact absurd hf (by simp)
                  | none =>
                      rw [hl1] at hf
                      rw [mandatoryKey, Except.error.inj hf]
              | resMut tk1 =>
                  rw [fetchParam] at hf
                  cases hl1 : lookupResource rs tk1 with
                  | some v => rw [hl1] at hf; exact absurd hf (by simp)
                  | none =>
                      rw [hl1] at hf
                      rw [mandatoryKey, Except.error.inj hf]
              | optionalRes tk1 => exact absurd hf (by rw [fetchParam]; simp)
              | optionalResMut tk1 => exact absurd hf (by rw [fetchParam]; simp)
              | queryShape => exact absurd hf (by rw [fetchParam]; simp)
        | ok p =>
            have hrest : ∃ sp ∈ rest, ∃ tk, mandatoryKey sp = some tk ∧
                lookupResource rs tk = none := by
              rcases hsp with hsp | hsp
              · exfalso
                rw [← hsp] at hf
                cases sp with
                | res tk1 =>
                    rw [show mandatoryKey (.res tk1) = some tk1 from rfl] at hmk
                    have htk : tk1 = tk := Option.some.inj hmk
                    rw [fetchParam, htk, hlk] at hf
                    exact absurd hf (by simp)
                | resMut tk1 =>
                    rw [show mandatoryKey (.resMut tk1) = some tk1 from rfl] at hmk
                    have htk : tk1 = tk := Option.some.inj hmk
                    rw [fetchParam, htk, hlk] at hf
                    exact absurd hf (by simp)
                | optionalRes tk1 => exact absurd hmk (by simp [mandatoryKey])
                | optionalResMut tk1 => exact absurd hmk (by simp [mandatoryKey])
                | queryShape => exact absurd hmk (by simp [mandatoryKey])
              · exact ⟨sp, hsp, tk, hmk, hlk⟩
            obtain ⟨tk', he, hl', sp', hsp', hmk'⟩ := ih hrest
            refine ⟨tk', ?_, hl', sp', List.mem_cons_of_mem sp0 hsp', hmk'⟩
            rw [fetchParams, hf, he]
  · induction specs with
    | nil => intro _; exact ⟨[], rfl⟩
    | cons sp0 rest ih =>
        intro h
        obtain ⟨ps, hps⟩ := ih (fun sp hsp tk hmk => h sp (List.mem_cons_of_mem sp0 hsp) tk hmk)
        have hok : ∃ p, fetchParam rs sp0 = .ok p := by
          cases sp0 with
          | res tk1 =>
              have := h (.res tk1) (List.mem_cons_self _ _) tk1 rfl
              cases hl1 : lookupResource rs tk1 with
              | none => rw [hl1] at this; simp at this
              | some v => exact ⟨.resVal v, by rw [fetchParam, hl1]⟩
          | resMut tk1 =>
              have := h (.resMut tk1) (List.mem_cons_self _ _) tk1 rfl
              cases hl1 : lookupResource rs tk1 with
              | none => rw [hl1] at this; simp at this
              | some v => exact ⟨.resMutVal v, by rw [fetchParam, hl1]⟩
          | optionalRes tk1 => exact ⟨_, rfl⟩
          | optionalResMut tk1 => exact ⟨_, rfl⟩
          | queryShape => exact ⟨_, rfl⟩
        obtain ⟨p, hp⟩ := hok
        refine ⟨p :: ps, ?_⟩
        rw [fetchParams, hp, hps]

/-- Witness for `mandatory_resource_missing_fatal`: with only resource 0
stored, a system declaring `Res` of type 1 aborts naming a missing mandatory
type, while a system declaring `Res` of type 0 and an optional type 1 runs. -/
theorem mandatory_resource_missing_witness :
    (∃ sp ∈ [SystemParamSpec.optionalRes 1, SystemParamSpec.res 1], ∃ tk,
        mandatoryKey sp = some tk ∧ lookupResource [((0 : TypeKey), (7 : Nat))] tk = none) ∧
      (∃ tk', fetchParams [((0 : TypeKey), (7 : Nat))]
            [SystemParamSpec.optionalRes 1, SystemParamSpec.res 1] = .error tk' ∧
          lookupResource [((0 : TypeKey), (7 : Nat))] tk' = none ∧
          ∃ sp ∈ [SystemParamSpec.optionalRes 1, SystemParamSpec.res 1],
            mandatoryKey sp = some tk') ∧
      (∀ sp ∈ [SystemParamSpec.res 0, SystemParamSpec.optionalRes 1], ∀ tk,
          mandatoryKey sp = some tk →
            (lookupResource [((0 : TypeKey), (7 : Nat))] tk).isSome = true) ∧
      (∃ ps, fetchParams [((0 : TypeKey), (7 : Nat))]
          [SystemParamSpec.res 0, SystemParamSpec.optionalRes 1] = .ok ps) := by
  have h1 : ∃ sp ∈ [SystemParamSpec.optionalRes 1, SystemParamSpec.res 1], ∃ tk,
      mandatoryKey sp = some tk ∧ lookupResource [((0 : TypeKey), (7 : Nat))] tk = none := by
    refine ⟨.res 1, by simp, 1, rfl, rfl⟩
  have h2 : ∀ sp ∈ [SystemParamSpec.res 0, SystemParamSpec.optionalRes 1], ∀ tk,
      mandatoryKey sp = some tk →
        (lookupResource [((0 : TypeKey), (7 : Nat))] tk).isSome = true := by
    intro sp hsp tk hmk
    simp only [List.mem_cons, List.not_mem_nil, or_false] at hsp
    rcases hsp with hsp | hsp
    · rw [hsp] at hmk
      have htk : tk = 0 := (Option.some.inj hmk).symm
      subst htk
      rfl
    · rw [hsp] at hmk
      exact absurd hmk (by simp [mandatoryKey])
  refine ⟨h1, ?_, h2, ?_⟩
  · exact (mandatory_resource_missing_fatal [((0 : TypeKey), (7 : Nat))]
      [SystemParamSpec.optionalRes 1, SystemParamSpec.res 1]).1 h1
  · exact (mandatory_resource_missing_fatal [((0 : TypeKey), (7 : Nat))]
      [SystemParamSpec.res 0, SystemParamSpec.optionalRes 1]).2.1 h2

/-- The registration identity of a system (its position-tag in the `systems`
vector). -/
abbrev SysId := Nat

/-- The `Registry::run_systems`: the `for system in &mut self.systems` loop,
passing each stored system the whole registry state in turn.  Each system is
a state transformer tagged with its registration identity; the second
component is the invocation log. -/
def run_systems (r : Registry V) (systems : List (SysId × (Registry V → Registry V))) :
    Registry V × List SysId :=
  systems.foldl (fun acc s => (s.2 acc.1, acc.2 ++ [s.1])) (r, [])

theorem run_systems_log (r : Registry V)
    (systems : List (SysId × (Registry V → Registry V))) (log : List SysId) :
    systems.foldl (fun acc s => (s.2 acc.1, acc.2 ++ [s.1])) (r, log)
      = ((run_systems r systems).1, log ++ systems.map Prod.fst) := by
  induction systems generalizing r log with
  | nil => simp [run_systems]
  | cons s rest ih =>
      rw [List.foldl_cons]
      rw [ih (s.2 r) (log ++ [s.1])]
      rw [show run_systems r (s :: rest)
          = rest.foldl (fun acc t => (t.2 acc.1, acc.2 ++ [t.1])) (s.2 r, [s.1]) from rfl]
      rw [ih (s.2 r) [s.1]]
      simp

/-- C8: one `run_systems` pass invokes exactly the registered systems, each
once, in registration order (the invocation log is the registration sequence),
and the state handed to every later segment is the state produced by all
earlier systems of the same pass. -/
theorem run_systems_in_order (r : Registry V)
    (l1 l2 : List (SysId × (Registry V → Registry V))) :
    (run_systems r (l1 ++ l2)).2 = (l1 ++ l2).map Prod.fst ∧
      (run_systems r (l1 ++ l2)).1 = (run_systems (run_systems r l1).1 l2).1 := by
  constructor
  · have h := run_systems_log r (l1 ++ l2) []
    rw [show run_systems r (l1 ++ l2)
        = (l1 ++ l2).foldl (fun acc s => (s.2 acc.1, acc.2 ++ [s.1])) (r, []) from rfl, h]
    simp
  · rw [show run_systems r (l1 ++ l2)
        = (l1 ++ l2).foldl (fun acc s => (s.2 acc.1, acc.2 ++ [s.1])) (r, []) from rfl]
    rw [List.foldl_append]
    rw [show l1.foldl (fun acc s => (s.2 acc.1, acc.2 ++ [s.1])) (r, []) = run_systems r l1
      from rfl]
    rw [show run_systems r l1 = ((run_systems r l1).1, (run_systems r l1).2) from rfl]
    rw [run_systems_log (run_systems r l1).1 l2 (run_systems r l1).2]

end Recs
